import Mathlib

/-!
Verification of the any2any type-directed conversion engine.

The development shallowly embeds the Python sources of the `any2any`
repository: `base.py` (the `CastSettings` configuration store, the global
registry `mm_to_cast`, `register`, and `Cast.cast_for`), `daccasts.py`
(`DivideAndConquerCast` and the `CastItems` mixin), and `containercast.py`
(`ContainerCast` and its list/dict mixins).  Modules of the repository that
are absent from the source tree (`cast.py`, `utils.py`,
`stacks/basicstack.py`) are modelled from the specification and from the
repository's own tests, as flagged in the corresponding doc comments.
-/

namespace Any2Any

/-! ## Association-list primitives

Python dictionaries are embedded as association lists with unique keys in
insertion order.  `assocFind` is `d.get(k)`, `assocSet` is `d[k] = v`
(which keeps the position of an existing key and appends a new key at the
end, as CPython dictionaries do), and `assocUpdate` is `d1.update(d2)`.
-/

/-- Lookup of a key in an association list, like Python `d.get(k)`. -/
def assocFind {κ α : Type} [DecidableEq κ] (d : List (κ × α)) (k : κ) : Option α :=
  match d with
  | [] => none
  | (k0, v0) :: rest => if k0 = k then some v0 else assocFind rest k

/-- Store a binding, like Python `d[k] = v`: replace in place if the key
exists, append at the end otherwise. -/
def assocSet {κ α : Type} [DecidableEq κ] (d : List (κ × α)) (k : κ) (v : α) :
    List (κ × α) :=
  match d with
  | [] => [(k, v)]
  | (k0, v0) :: rest =>
      if k0 = k then (k0, v) :: rest else (k0, v0) :: assocSet rest k v

/-- Python `d1.update(d2)`: fold the bindings of `d2` into `d1`. -/
def assocUpdate {κ α : Type} [DecidableEq κ] (d1 d2 : List (κ × α)) :
    List (κ × α) :=
  match d2 with
  | [] => d1
  | (k, v) :: rest => assocUpdate (assocSet d1 k v) rest

/-- The keys of an association list, in order. -/
def assocKeys {κ α : Type} (d : List (κ × α)) : List κ := d.map Prod.fst

theorem assocFind_assocSet {κ α : Type} [DecidableEq κ]
    (d : List (κ × α)) (k k0 : κ) (v : α) :
    assocFind (assocSet d k v) k0 = if k = k0 then some v else assocFind d k0 := by
  induction d with
  | nil =>
      by_cases h : k = k0 <;> simp [assocSet, assocFind, h]
  | cons hd tl ih =>
      obtain ⟨k1, v1⟩ := hd
      by_cases h1 : k1 = k
      · subst h1
        by_cases h0 : k1 = k0 <;> simp [assocSet, assocFind, h0]
      · by_cases h0 : k1 = k0
        · subst h0
          have hk : ¬ (k = k1) := fun h => h1 h.symm
          simp [assocSet, assocFind, h1, hk]
        · simp [assocSet, assocFind, h1, h0, ih]

theorem assocFind_isSome_iff_mem {κ α : Type} [DecidableEq κ]
    (d : List (κ × α)) (k : κ) :
    (assocFind d k).isSome ↔ k ∈ assocKeys d := by
  induction d with
  | nil => simp [assocFind, assocKeys]
  | cons hd tl ih =>
      obtain ⟨k0, v0⟩ := hd
      by_cases h : k0 = k
      · subst h
        simp [assocFind, assocKeys]
      · have hk : ¬ (k = k0) := fun hx => h hx.symm
        simp [assocFind, assocKeys, h, hk, ih]

theorem assocFind_assocUpdate {κ α : Type} [DecidableEq κ]
    (d1 d2 : List (κ × α)) (k : κ) (hnd : (assocKeys d2).Nodup) :
    assocFind (assocUpdate d1 d2) k =
      ((assocFind d2 k).elim (assocFind d1 k) some) := by
  induction d2 generalizing d1 with
  | nil => simp [assocUpdate, assocFind]
  | cons hd tl ih =>
      obtain ⟨k2, v2⟩ := hd
      have hcons : assocKeys ((k2, v2) :: tl) = k2 :: assocKeys tl := rfl
      rw [hcons] at hnd
      have hk2 : k2 ∉ assocKeys tl := (List.nodup_cons.mp hnd).1
      have hnd2 : (assocKeys tl).Nodup := (List.nodup_cons.mp hnd).2
      by_cases h : k2 = k
      · subst h
        have hnone : assocFind tl k2 = none := by
          by_contra hne
          exact hk2 ((assocFind_isSome_iff_mem tl k2).mp
            (Option.ne_none_iff_isSome.mp hne))
        simp [assocUpdate, assocFind, ih _ hnd2, hnone, assocFind_assocSet]
      · simp only [assocUpdate, assocFind, if_pos, if_neg h, ih _ hnd2]
        cases hfind : assocFind tl k <;>
          simp [hfind, assocFind_assocSet, h]

/-! ## Schemas and `validate_schemas_match` (claim C1)

The structural-schema checker `CompiledSchema.validate_schemas_match` lives
in `any2any/cast.py`, which is absent from the source tree.  The definition
below is therefore modelled from the specification (section 4.4), whose
three cases are, in order:

  1. a wildcard-only destination schema (every key is the wildcard)
     accepts any source;
  2. a destination schema that is the terminal marker requires the source
     schema to be terminal as well — a leaf only maps to another leaf;
  3. otherwise, every key present in the destination schema that is not
     the wildcard must exist in the source schema (the destination may
     cover a subset of the source's keys — dropping fields is allowed;
     a destination requiring a key absent from the source fails with
     `SchemasDontMatch` citing the offending key).

Section 8 of the specification fixes the two concrete data points
reproduced in `validate_schemas_match_spec_examples` below.
-/

/-- Keys of a schema: ordinary string or integer keys plus the two special
markers `AttrDict.KeyAny` and `AttrDict.KeyFinal`. -/
inductive SchemaKey where
  | str (s : String)
  | int (n : Int)
  | keyAny
  | keyFinal
deriving DecidableEq

/-- A schema maps keys to (names of) expected types. -/
abbrev Schema := List (SchemaKey × String)

/-- The keys of a schema. -/
def schemaKeys (s : Schema) : List SchemaKey := s.map Prod.fst

/-- Outcome of `validate_schemas_match`: `ok` models returning `None`,
`schemasDontMatch` models raising `SchemasDontMatch`. -/
inductive MatchResult where
  | ok
  | schemasDontMatch (msg : String)
deriving DecidableEq

/-- Modelled from the spec: `CompiledSchema.validate_schemas_match
(schema_in, schema_out)` of the absent `cast.py`, following the three
cases of section 4.4 in order (see the section comment above).  A valid
schema containing the terminal marker contains no other key, so being
`KeyFinal`-marked is tested by membership. -/
def validate_schemas_match (schema_in schema_out : Schema) : MatchResult :=
  if schemaKeys schema_out ≠ [] ∧
     ∀ k ∈ schemaKeys schema_out, k = SchemaKey.keyAny then
    MatchResult.ok
  else if SchemaKey.keyFinal ∈ schemaKeys schema_out then
    if SchemaKey.keyFinal ∈ schemaKeys schema_in then MatchResult.ok
    else MatchResult.schemasDontMatch "a leaf only maps to another leaf"
  else if ∀ k ∈ schemaKeys schema_out,
      k = SchemaKey.keyAny ∨ k ∈ schemaKeys schema_in then
    MatchResult.ok
  else MatchResult.schemasDontMatch
    "the destination requires a key absent from the source"

/-- A schema with neither the wildcard nor the final marker. -/
def markerFree (s : Schema) : Prop :=
  SchemaKey.keyAny ∉ schemaKeys s ∧ SchemaKey.keyFinal ∉ schemaKeys s

instance (s : Schema) : Decidable (markerFree s) := by
  unfold markerFree
  exact inferInstance

/-- The model reproduces the two concrete data points fixed by section 8
of the specification: `validate_schemas_match({a: int}, {a: int, b: str})`
fails (the destination requires the key `b`, absent from the source) and
`validate_schemas_match({Any: int}, {Any: float})` succeeds. -/
theorem validate_schemas_match_spec_examples :
    (validate_schemas_match [(.str "a", "int")]
        [(.str "a", "int"), (.str "b", "str")] ≠ MatchResult.ok) ∧
    validate_schemas_match [(.keyAny, "int")] [(.keyAny, "float")] =
      MatchResult.ok := by
  decide

/-- The source schema of the section-8 example: only the key `a`. -/
def c1SchemaIn : Schema := [(.str "a", "int")]

/-- The destination schema of the section-8 example: the keys `a` and
`b`, the latter absent from `c1SchemaIn`. -/
def c1SchemaOut : Schema := [(.str "a", "int"), (.str "b", "str")]

/-- C1: for schemas without wildcard or final markers,
`validate_schemas_match S D` succeeds exactly when every key of the
destination schema `D` exists in the source schema `S` (the destination
may cover a subset of the source's keys), and fails with
`SchemasDontMatch` when `D` contains a key absent from `S`. -/
theorem C1_spec (S D : Schema) (hS : markerFree S) (hD : markerFree D) :
    (validate_schemas_match S D = MatchResult.ok ↔
      ∀ k ∈ schemaKeys D, k ∈ schemaKeys S) ∧
    (¬ (∀ k ∈ schemaKeys D, k ∈ schemaKeys S) →
      ∃ msg, validate_schemas_match S D = MatchResult.schemasDontMatch msg) := by
  obtain ⟨hDa, hDf⟩ := hD
  have hb1 : ¬ (schemaKeys D ≠ [] ∧
      ∀ k ∈ schemaKeys D, k = SchemaKey.keyAny) := by
    rintro ⟨hne, hall⟩
    cases hkeys : schemaKeys D with
    | nil => exact hne hkeys
    | cons k0 rest =>
        apply hDa
        have hk0 : k0 = SchemaKey.keyAny := hall k0 (by
          rw [hkeys]
          exact List.mem_cons_self k0 rest)
        rw [hkeys, ← hk0]
        exact List.mem_cons_self k0 rest
  unfold validate_schemas_match
  rw [if_neg hb1, if_neg hDf]
  by_cases hsub : ∀ k ∈ schemaKeys D, k ∈ schemaKeys S
  · have hcond : ∀ k ∈ schemaKeys D,
        k = SchemaKey.keyAny ∨ k ∈ schemaKeys S :=
      fun k hk => Or.inr (hsub k hk)
    rw [if_pos hcond]
    exact ⟨⟨fun _ => hsub, fun _ => rfl⟩, fun h => absurd hsub h⟩
  · have hcond : ¬ ∀ k ∈ schemaKeys D,
        k = SchemaKey.keyAny ∨ k ∈ schemaKeys S := by
      intro hall
      apply hsub
      intro k hk
      rcases hall k hk with h | h
      · exact absurd (h ▸ hk) hDa
      · exact h
    rw [if_neg hcond]
    refine ⟨⟨fun h => absurd h (by simp), fun h => absurd h hsub⟩,
      fun _ => ⟨_, rfl⟩⟩

/-- C1 (witness): the statement evaluated on the section-8 example
schemas. -/
theorem C1_witness :
    (validate_schemas_match c1SchemaIn c1SchemaOut = MatchResult.ok ↔
      ∀ k ∈ schemaKeys c1SchemaOut, k ∈ schemaKeys c1SchemaIn) ∧
    (¬ (∀ k ∈ schemaKeys c1SchemaOut, k ∈ schemaKeys c1SchemaIn) →
      ∃ msg, validate_schemas_match c1SchemaIn c1SchemaOut =
        MatchResult.schemasDontMatch msg) :=
  C1_spec c1SchemaIn c1SchemaOut (by decide) (by decide)

/-! ## The `CastSettings` configuration store (`base.py`, claims C7 and C8)

`CastSettings` (base.py lines 47-158) is a mutable mapping with a per-name
schema.  Setting values are embedded as a small Python-value type `SVal`:
the settings used by the engine are scalars and dictionaries.  `copy.copy`
of a scalar is the value itself and, in this pure value model, a copy of a
dictionary has the same entries (object identity is modelled separately in
the store-based model further below, for claim C10).
-/

/-- A Python value held by a setting. -/
inductive SVal where
  | none
  | int (n : Int)
  | str (s : String)
  | bool (b : Bool)
  | dict (entries : List (String × SVal))

/-- Python truthiness of a setting value (`if new_value:` in
`copy_and_update`). -/
def SVal.truthy : SVal → Bool
  | SVal.none => false
  | SVal.int n => decide (n ≠ 0)
  | SVal.str s => decide (s ≠ "")
  | SVal.bool b => b
  | SVal.dict [] => false
  | SVal.dict (_ :: _) => true

/-- The class name of a value, used by the `isinstance` check of
`CastSettings.__setitem__`. -/
def svalTypeName : SVal → String
  | SVal.none => "NoneType"
  | SVal.int _ => "int"
  | SVal.str _ => "str"
  | SVal.bool _ => "bool"
  | SVal.dict _ => "dict"

/-- The update methods a schema entry can name: `__setitem__` (the default),
`copy_and_update`, and `do_nothing` (base.py lines 136, 146, 152-158). -/
inductive Strategy where
  | setitem
  | copyAndUpdate
  | doNothing
deriving DecidableEq

/-- A schema entry of a `CastSettings`: the optional keys `type`,
`override` and `customize` of the per-setting schema dictionary. -/
structure SettingEntry where
  typeCheck : Option String
  overrideStrategy : Option Strategy
  customizeStrategy : Option Strategy
deriving DecidableEq

/-- Python `entry.update(other)` on two schema-entry dictionaries: keys
present in `other` win (base.py line 131). -/
def SettingEntry.updateWith (e1 e2 : SettingEntry) : SettingEntry :=
  { typeCheck := match e2.typeCheck with
      | some t => some t
      | Option.none => e1.typeCheck
    overrideStrategy := match e2.overrideStrategy with
      | some s => some s
      | Option.none => e1.overrideStrategy
    customizeStrategy := match e2.customizeStrategy with
      | some s => some s
      | Option.none => e1.customizeStrategy }

/-- The Python exceptions the settings code can raise. -/
inductive PyErr where
  | typeError (msg : String)
  | keyError (msg : String)
  | attributeError (msg : String)
deriving DecidableEq

/-- The state of a `CastSettings` instance: its `_schema` and `_values`
dictionaries (base.py lines 78-84). -/
structure CastSettings where
  schema : List (String × SettingEntry)
  values : List (String × SVal)

/-- CastSettings.__setitem__ (base.py lines 92-101): writing an undeclared
name raises `TypeError("Setting ... is not defined")`; a declared `type`
entry is checked with `isinstance`. -/
def CastSettings.setitem (cs : CastSettings) (name : String) (v : SVal) :
    Except PyErr CastSettings :=
  match assocFind cs.schema name with
  | Option.none => Except.error (PyErr.typeError "setting is not defined")
  | some entry =>
      match entry.typeCheck with
      | Option.none => Except.ok { cs with values := assocSet cs.values name v }
      | some t =>
          if svalTypeName v = t then
            Except.ok { cs with values := assocSet cs.values name v }
          else Except.error (PyErr.typeError "value must be of the declared type")

/-- CastSettings.__getitem__ (base.py lines 86-90): a name with no value
raises `KeyError`. -/
def CastSettings.getitem (cs : CastSettings) (name : String) : Except PyErr SVal :=
  match assocFind cs.values name with
  | Option.none => Except.error (PyErr.keyError name)
  | some v => Except.ok v

/-- Python `self.get(name, None)` used by `copy_and_update`. -/
def CastSettings.getDefault (cs : CastSettings) (name : String) : SVal :=
  (assocFind cs.values name).getD SVal.none

/-- CastSettings.copy_and_update (base.py lines 152-155):
`new_value = copy.copy(self.get(name, None))`, `if new_value:
new_value.update(value)`, `self[name] = new_value or copy.copy(value)`. -/
def CastSettings.copy_and_update (cs : CastSettings) (name : String) (v : SVal) :
    Except PyErr CastSettings :=
  let new_value := cs.getDefault name
  if new_value.truthy then
    match new_value, v with
    | SVal.dict d1, SVal.dict d2 =>
        cs.setitem name (SVal.dict (assocUpdate d1 d2))
    | SVal.dict _, _ => Except.error (PyErr.typeError "update needs a mapping")
    | _, _ => Except.error (PyErr.attributeError "value has no method update")
  else
    cs.setitem name v

/-- Dispatch on the method name stored in the schema entry
(`getattr(self, meth)(name, value)`, base.py lines 137 and 150). -/
def CastSettings.applyStrategy (cs : CastSettings) (strat : Strategy)
    (name : String) (v : SVal) : Except PyErr CastSettings :=
  match strat with
  | Strategy.setitem => cs.setitem name v
  | Strategy.copyAndUpdate => cs.copy_and_update name v
  | Strategy.doNothing => Except.ok cs

/-- CastSettings.customize (base.py lines 139-150): iterate the incoming
name-value pairs; a name absent from the schema is silently skipped
(`except KeyError: pass`); otherwise the entry's `customize` method
(default `__setitem__`) is applied. -/
def CastSettings.customize (cs : CastSettings) :
    List (String × SVal) → Except PyErr CastSettings
  | [] => Except.ok cs
  | (name, v) :: rest =>
      match assocFind cs.schema name with
      | Option.none => cs.customize rest
      | some entry =>
          match cs.applyStrategy (entry.customizeStrategy.getD Strategy.setitem) name v with
          | Except.error e => Except.error e
          | Except.ok cs2 => cs2.customize rest

/-- The value loop of CastSettings.override (base.py lines 134-137):
unlike `customize`, `self._schema[name]` raises `KeyError` for an
undeclared name; otherwise the entry's `override` method (default
`__setitem__`) is applied. -/
def CastSettings.overrideValues (cs : CastSettings) :
    List (String × SVal) → Except PyErr CastSettings
  | [] => Except.ok cs
  | (name, v) :: rest =>
      match assocFind cs.schema name with
      | Option.none => Except.error (PyErr.keyError name)
      | some entry =>
          match cs.applyStrategy (entry.overrideStrategy.getD Strategy.setitem) name v with
          | Except.error e => Except.error e
          | Except.ok cs2 => cs2.overrideValues rest

/-- The schema-merging loop of CastSettings.override (base.py lines
128-133), run when the donor is itself a `CastSettings`: an entry already
declared is updated in place (donor keys win), a new entry is copied. -/
def overrideSchemaList (sch : List (String × SettingEntry)) :
    List (String × SettingEntry) → List (String × SettingEntry)
  | [] => sch
  | (name, e) :: rest =>
      match assocFind sch name with
      | some e1 => overrideSchemaList (assocSet sch name (e1.updateWith e)) rest
      | Option.none => overrideSchemaList (assocSet sch name e) rest

/-- CastSettings.override with a `CastSettings` donor (base.py lines
122-137): merge the schemas, then run the value loop on the donor's
values. -/
def CastSettings.override (cs : CastSettings) (donor : CastSettings) :
    Except PyErr CastSettings :=
  CastSettings.overrideValues
    { cs with schema := overrideSchemaList cs.schema donor.schema }
    donor.values

/-- CastSettings.override with a plain-mapping donor: no schema merge,
only the value loop. -/
def CastSettings.overrideDict (cs : CastSettings)
    (settings : List (String × SVal)) : Except PyErr CastSettings :=
  cs.overrideValues settings

/-- An entry declaring no type check and no explicit strategies. -/
def entryPlain : SettingEntry :=
  ⟨Option.none, Option.none, Option.none⟩

/-- An entry declaring `copy_and_update` for both override and customize. -/
def entryShallowMerge : SettingEntry :=
  ⟨Option.none, some Strategy.copyAndUpdate, some Strategy.copyAndUpdate⟩

/-- A store declaring only the setting `a`, used as the C7 counterexample. -/
def c7Settings : CastSettings := ⟨[("a", entryPlain)], []⟩

/-- C7 (counterexample): `customize` with a value for the undeclared name
`b` succeeds silently and leaves the store unchanged (base.py lines
144-150, `except KeyError: pass`), where the claim requires a failure with
`UnknownSettingError` on every write path including `customize`. -/
theorem C7_counterexample :
    assocFind c7Settings.schema "b" = Option.none ∧
    c7Settings.customize [("b", SVal.int 1)] = Except.ok c7Settings :=
  ⟨rfl, rfl⟩

/-- C7 (amended): reading or writing an undeclared setting name directly
fails (`__setitem__` raises `TypeError`, `__getitem__` raises `KeyError`);
but settings handed down through `customize` are silently skipped when the
name is undeclared, not an error. -/
theorem C7_amended_spec (cs : CastSettings) (name : String) (v : SVal)
    (hschema : assocFind cs.schema name = Option.none)
    (hvalues : assocFind cs.values name = Option.none) :
    (∃ msg, cs.setitem name v = Except.error (PyErr.typeError msg)) ∧
    (∃ msg, cs.getitem name = Except.error (PyErr.keyError msg)) ∧
    cs.customize [(name, v)] = Except.ok cs := by
  refine ⟨⟨"setting is not defined", ?_⟩, ⟨name, ?_⟩, ?_⟩ <;>
    simp [CastSettings.setitem, CastSettings.getitem, CastSettings.customize,
      hschema, hvalues]

/-- C7 (witness): the amended statement evaluated on the concrete store. -/
theorem C7_witness :
    (∃ msg, c7Settings.setitem "b" (SVal.int 1) =
      Except.error (PyErr.typeError msg)) ∧
    (∃ msg, c7Settings.getitem "b" = Except.error (PyErr.keyError msg)) ∧
    c7Settings.customize [("b", SVal.int 1)] = Except.ok c7Settings :=
  C7_amended_spec c7Settings "b" (SVal.int 1) rfl rfl

/-- C8: a setting declared with the `copy_and_update` strategy merges an
old mapping value `O` with an incoming mapping value `N` — through
`override` as well as through `customize` — into the key-union of `O` and
`N` in which `N` wins on every colliding key; a setting whose entry
declares no strategy is plainly replaced (`__setitem__`, last write
wins). -/
theorem C8_spec (cs : CastSettings) (name : String) (entry : SettingEntry)
    (O N : List (String × SVal))
    (hentry : assocFind cs.schema name = some entry)
    (htype : entry.typeCheck = Option.none)
    (hcust : entry.customizeStrategy = some Strategy.copyAndUpdate)
    (hover : entry.overrideStrategy = some Strategy.copyAndUpdate)
    (hold : assocFind cs.values name = some (SVal.dict O))
    (hnd : (assocKeys N).Nodup) :
    (∃ M, (∀ k, assocFind M k = ((assocFind N k).elim (assocFind O k) some)) ∧
      (∀ k, k ∈ assocKeys M ↔ k ∈ assocKeys O ∨ k ∈ assocKeys N) ∧
      cs.customize [(name, SVal.dict N)] =
        Except.ok { cs with values := assocSet cs.values name (SVal.dict M) } ∧
      cs.overrideValues [(name, SVal.dict N)] =
        Except.ok { cs with values := assocSet cs.values name (SVal.dict M) }) ∧
    (∀ (cs2 : CastSettings) (name2 : String) (entry2 : SettingEntry) (v : SVal),
      assocFind cs2.schema name2 = some entry2 →
      entry2.typeCheck = Option.none →
      entry2.customizeStrategy = Option.none →
      entry2.overrideStrategy = Option.none →
      cs2.customize [(name2, v)] =
        Except.ok { cs2 with values := assocSet cs2.values name2 v } ∧
      cs2.overrideValues [(name2, v)] =
        Except.ok { cs2 with values := assocSet cs2.values name2 v }) := by
  constructor
  · cases O with
    | nil =>
        refine ⟨N, fun k => ?_, fun k => ?_, ?_, ?_⟩
        · cases hN : assocFind N k <;> simp [hN, assocFind]
        · simp [assocKeys, assocFind]
        · simp [CastSettings.customize, CastSettings.applyStrategy,
            CastSettings.copy_and_update, CastSettings.getDefault,
            CastSettings.setitem, SVal.truthy, hentry, hcust, htype, hold]
        · simp [CastSettings.overrideValues, CastSettings.applyStrategy,
            CastSettings.copy_and_update, CastSettings.getDefault,
            CastSettings.setitem, SVal.truthy, hentry, hover, htype, hold]
    | cons o0 orest =>
        refine ⟨assocUpdate (o0 :: orest) N, fun k => ?_, fun k => ?_, ?_, ?_⟩
        · exact assocFind_assocUpdate (o0 :: orest) N k hnd
        · simp only [← assocFind_isSome_iff_mem,
            assocFind_assocUpdate (o0 :: orest) N k hnd]
          cases hN : assocFind N k <;> simp
        · simp [CastSettings.customize, CastSettings.applyStrategy,
            CastSettings.copy_and_update, CastSettings.getDefault,
            CastSettings.setitem, SVal.truthy, hentry, hcust, htype, hold]
        · simp [CastSettings.overrideValues, CastSettings.applyStrategy,
            CastSettings.copy_and_update, CastSettings.getDefault,
            CastSettings.setitem, SVal.truthy, hentry, hover, htype, hold]
  · intro cs2 name2 entry2 v hentry2 htype2 hcust2 hover2
    constructor
    · simp [CastSettings.customize, CastSettings.applyStrategy,
        CastSettings.setitem, hentry2, htype2, hcust2]
    · simp [CastSettings.overrideValues, CastSettings.applyStrategy,
        CastSettings.setitem, hentry2, htype2, hover2]

/-- A store with one shallow-merge setting `m` holding a two-key mapping,
mirroring `Cast.defaults` declaring `copy_and_update` for `mm_to_cast`. -/
def c8Settings : CastSettings :=
  ⟨[("m", entryShallowMerge)],
   [("m", SVal.dict [("a", SVal.int 1), ("b", SVal.int 2)])]⟩

/-- The old mapping held by `c8Settings` at `m`. -/
def c8Old : List (String × SVal) := [("a", SVal.int 1), ("b", SVal.int 2)]

/-- An incoming mapping colliding with `c8Old` on the key `b`. -/
def c8New : List (String × SVal) := [("b", SVal.int 3), ("c", SVal.int 4)]

/-- C8 (witness): the shallow-merge statement evaluated on a concrete
store and incoming mapping. -/
theorem C8_witness :
    (∃ M, (∀ k, assocFind M k =
        ((assocFind c8New k).elim (assocFind c8Old k) some)) ∧
      (∀ k, k ∈ assocKeys M ↔ k ∈ assocKeys c8Old ∨ k ∈ assocKeys c8New) ∧
      c8Settings.customize [("m", SVal.dict c8New)] =
        Except.ok { c8Settings with
          values := assocSet c8Settings.values "m" (SVal.dict M) } ∧
      c8Settings.overrideValues [("m", SVal.dict c8New)] =
        Except.ok { c8Settings with
          values := assocSet c8Settings.values "m" (SVal.dict M) }) ∧
    (∀ (cs2 : CastSettings) (name2 : String) (entry2 : SettingEntry) (v : SVal),
      assocFind cs2.schema name2 = some entry2 →
      entry2.typeCheck = Option.none →
      entry2.customizeStrategy = Option.none →
      entry2.overrideStrategy = Option.none →
      cs2.customize [(name2, v)] =
        Except.ok { cs2 with values := assocSet cs2.values name2 v } ∧
      cs2.overrideValues [(name2, v)] =
        Except.ok { cs2 with values := assocSet cs2.values name2 v }) :=
  C8_spec c8Settings "m" entryShallowMerge c8Old c8New rfl rfl rfl rfl rfl
    (by decide)

/-! ## Casts, the registry and `cast_for` (`base.py`, claims C4 and C5)

`Cast` instances (base.py lines 226-311) carry a settings store, a
recursion depth `_depth`, and — through the setting `mm_to_cast` — a local
registry.  Python object identity is modelled by an `oid` tag: `copy.copy`
allocates a fresh tag from a counter threaded through the operations.

The class `Mm` lives in `utils.py`, which is absent from the source tree;
it is modelled minimally from the spec as the structural identity of a
conversion intent: the four constructor arguments
`Mm(from_, to, from_any, to_any)` with structural equality.  Likewise
`Mm.pick_closest_in` (the closest-match query) is absent from the source
tree, so the functions below take the picking function as an explicit
parameter `pick` and the theorems hold for every such function.
-/

/-- Modelled from the spec: a metamorphosis is an ordered pair of type
patterns, here the four constructor arguments of `utils.Mm`, compared
structurally. -/
structure Mm where
  fromClass : Option String
  toClass : Option String
  fromAnyClass : Option String
  toAnyClass : Option String
deriving DecidableEq

/-- A cast instance: its object identity `oid`, its `_depth`, its
settings, and the local registry held by its `mm_to_cast` setting (kept as
a separate field so that the registry maps can mention casts). -/
inductive PyCast where
  | mk (oid : Nat) (depth : Nat) (settings : CastSettings)
      (mmToCast : List (Mm × PyCast))

/-- The object identity of a cast. -/
def PyCast.oid : PyCast → Nat
  | PyCast.mk o _ _ _ => o

/-- The `_depth` of a cast. -/
def PyCast.depth : PyCast → Nat
  | PyCast.mk _ d _ _ => d

/-- The settings of a cast. -/
def PyCast.settings : PyCast → CastSettings
  | PyCast.mk _ _ s _ => s

/-- The local `mm_to_cast` map of a cast. -/
def PyCast.mmToCast : PyCast → List (Mm × PyCast)
  | PyCast.mk _ _ _ m => m

/-- Python `MutableMapping.update` on a `CastSettings`: `__setitem__` for
each incoming pair. -/
def CastSettings.updateList (cs : CastSettings) :
    List (String × SVal) → Except PyErr CastSettings
  | [] => Except.ok cs
  | (name, v) :: rest =>
      match cs.setitem name v with
      | Except.error e => Except.error e
      | Except.ok cs2 => cs2.updateList rest

/-- The value stored in the `from_` and `to` settings for a type-pattern
argument of an `Mm`. -/
def optClassToSVal : Option String → SVal
  | Option.none => SVal.none
  | some t => SVal.str t

/-- Cast.copy (base.py lines 290-297 together with `__copy__`, lines
309-311): `copy.copy(self)` builds a fresh instance — a new object
identity, `_depth` reset to `0` by `__init__`, the same setting values and
schema — and then `new_cast.settings.update(settings)` writes the given
settings. -/
def castCopy (c : PyCast) (settings : List (String × SVal)) (fresh : Nat) :
    Except PyErr (PyCast × Nat) :=
  match c.settings.updateList settings with
  | Except.error e => Except.error e
  | Except.ok cs2 => Except.ok (PyCast.mk fresh 0 cs2 c.mmToCast, fresh + 1)

/-- base.py lines 40-44: `register(cast, mm)` stores `mm_to_cast[mm] =
cast` in the process-wide dictionary. -/
def register (globalMap : List (Mm × PyCast)) (mm : Mm) (cast : PyCast) :
    List (Mm × PyCast) :=
  assocSet globalMap mm cast

/-- The candidate-building step of Cast.cast_for (base.py lines 278-280):
`choices = mm_to_cast.copy()` followed by `choices.update(self.mm_to_cast)`.
The first component is the candidate dictionary; the second is the global
registry after the step — the `.copy()` leaves it untouched, whereas an
in-place update would have returned the merged map here. -/
def buildChoices (globalMap localMap : List (Mm × PyCast)) :
    List (Mm × PyCast) × List (Mm × PyCast) :=
  (assocUpdate globalMap localMap, globalMap)

/-- Cast.cast_for (base.py lines 271-288): build the candidate map from
the global and local registries, pick the closest metamorphosis, clone the
winning prototype with `from_`/`to` set to the requested patterns, bump
the clone's `_depth` to the prototype's depth plus one, and customize its
settings with the resolving cast's own settings.  The resolving cast's
`mm_to_cast` value is part of its settings and the `mm_to_cast` entry
declares no `customize` method, so the default `__setitem__` replaces the
clone's local map with the resolving cast's one.  The returned triple is
(new cast, allocation counter, global registry after the call). -/
def cast_for (globalMap : List (Mm × PyCast)) (self : PyCast) (mm : Mm)
    (pick : Mm → List Mm → Option Mm) (fresh : Nat) :
    Except PyErr (PyCast × Nat × List (Mm × PyCast)) :=
  match pick mm (assocKeys (buildChoices globalMap self.mmToCast).1) with
  | Option.none => Except.error (PyErr.keyError "no suitable metamorphosis")
  | some closest =>
      match assocFind (buildChoices globalMap self.mmToCast).1 closest with
      | Option.none => Except.error (PyErr.keyError "metamorphosis not registered")
      | some cast =>
          match castCopy cast
              [("from_", optClassToSVal mm.fromClass),
               ("to", optClassToSVal mm.toClass)] fresh with
          | Except.error e => Except.error e
          | Except.ok (newCast, fresh2) =>
              match newCast.settings.customize self.settings.values with
              | Except.error e => Except.error e
              | Except.ok cs2 =>
                  Except.ok (PyCast.mk newCast.oid (cast.depth + 1) cs2
                    self.mmToCast, fresh2,
                    (buildChoices globalMap self.mmToCast).2)

theorem setitem_ok_schema (cs cs2 : CastSettings) (name : String) (v : SVal)
    (hok : cs.setitem name v = Except.ok cs2) :
    cs2.schema = cs.schema ∧ cs2.values = assocSet cs.values name v := by
  unfold CastSettings.setitem at hok
  split at hok
  · exact absurd hok (by simp)
  · split at hok
    · cases hok
      exact ⟨rfl, rfl⟩
    · split at hok
      · cases hok
        exact ⟨rfl, rfl⟩
      · exact absurd hok (by simp)

theorem applyStrategy_ok_frame (cs cs2 : CastSettings) (strat : Strategy)
    (n : String) (v : SVal)
    (hok : cs.applyStrategy strat n v = Except.ok cs2) :
    cs2.schema = cs.schema ∧
    ∀ name, name ≠ n → assocFind cs2.values name = assocFind cs.values name := by
  have hmain : cs2.schema = cs.schema ∧ cs2.values = assocSet cs.values n v ∨
      (∃ w, cs2.schema = cs.schema ∧ cs2.values = assocSet cs.values n w) ∨
      cs2 = cs := by
    cases strat with
    | setitem =>
        simp only [CastSettings.applyStrategy] at hok
        exact Or.inl (setitem_ok_schema cs cs2 n v hok)
    | copyAndUpdate =>
        simp only [CastSettings.applyStrategy, CastSettings.copy_and_update] at hok
        split at hok
        · split at hok
          · exact Or.inr (Or.inl ⟨_, setitem_ok_schema cs cs2 n _ hok⟩)
          · exact absurd hok (by simp)
          · exact absurd hok (by simp)
        · exact Or.inl (setitem_ok_schema cs cs2 n v hok)
    | doNothing =>
        simp only [CastSettings.applyStrategy] at hok
        cases hok
        exact Or.inr (Or.inr rfl)
  rcases hmain with ⟨h1, h2⟩ | ⟨w, h1, h2⟩ | h1
  · refine ⟨h1, fun name hne => ?_⟩
    rw [h2, assocFind_assocSet]
    exact if_neg (fun h => hne h.symm)
  · refine ⟨h1, fun name hne => ?_⟩
    rw [h2, assocFind_assocSet]
    exact if_neg (fun h => hne h.symm)
  · subst h1
    exact ⟨rfl, fun _ _ => rfl⟩

theorem customize_ok_untouched (donor : List (String × SVal)) :
    ∀ (cs cs2 : CastSettings) (name : String),
    cs.customize donor = Except.ok cs2 → name ∉ assocKeys donor →
    cs2.schema = cs.schema ∧
    assocFind cs2.values name = assocFind cs.values name := by
  induction donor with
  | nil =>
      intro cs cs2 name hok _
      unfold CastSettings.customize at hok
      cases hok
      exact ⟨rfl, rfl⟩
  | cons hd rest ih =>
      intro cs cs2 name hok hnot
      obtain ⟨n, v⟩ := hd
      have hne : name ≠ n := by
        intro h
        exact hnot (by simp [assocKeys, h])
      have hnot2 : name ∉ assocKeys rest := by
        intro h
        exact hnot (by simp [assocKeys] at h ⊢; exact Or.inr h)
      unfold CastSettings.customize at hok
      split at hok
      · exact ih cs cs2 name hok hnot2
      · rename_i entry hsch
        split at hok
        · exact absurd hok (by simp)
        · rename_i csMid happ
          obtain ⟨hs1, hv1⟩ := applyStrategy_ok_frame cs csMid _ n v happ
          obtain ⟨hs2, hv2⟩ := ih csMid cs2 name hok hnot2
          exact ⟨hs2.trans hs1, hv2.trans (hv1 name hne)⟩

theorem customize_ok_setitem_lookup (donor : List (String × SVal)) :
    ∀ (cs cs2 : CastSettings) (name : String) (v : SVal) (entry : SettingEntry),
    cs.customize donor = Except.ok cs2 →
    (assocKeys donor).Nodup →
    assocFind donor name = some v →
    assocFind cs.schema name = some entry →
    entry.customizeStrategy = Option.none →
    entry.typeCheck = Option.none →
    assocFind cs2.values name = some v := by
  induction donor with
  | nil =>
      intro cs cs2 name v entry _ _ hmem _ _ _
      exact absurd hmem (by simp [assocFind])
  | cons hd rest ih =>
      intro cs cs2 name v entry hok hnd hmem hentry hstrat htype
      obtain ⟨n, w⟩ := hd
      have hndrest : (assocKeys rest).Nodup := (List.nodup_cons.mp hnd).2
      have hn_notin : n ∉ assocKeys rest := (List.nodup_cons.mp hnd).1
      unfold CastSettings.customize at hok
      by_cases heq : n = name
      · subst heq
        have hv : w = v := by
          unfold assocFind at hmem
          rw [if_pos rfl] at hmem
          exact Option.some_injective _ hmem
        subst hv
        split at hok
        · rename_i hsch
          rw [hentry] at hsch
          exact absurd hsch (by simp)
        · rename_i entry1 hsch
          rw [hentry] at hsch
          have hentry1 : entry1 = entry := by
            injection hsch.symm
          subst hentry1
          rw [hstrat] at hok
          split at hok
          · exact absurd hok (by simp)
          · rename_i csMid happ
            obtain ⟨_, hv2⟩ := customize_ok_untouched rest csMid cs2 n hok hn_notin
            rw [hv2]
            obtain ⟨_, hvals⟩ :=
              setitem_ok_schema cs csMid n w (by simpa using happ)
            rw [hvals, assocFind_assocSet, if_pos rfl]
      · have hmem2 : assocFind rest name = some v := by
          unfold assocFind at hmem
          rw [if_neg heq] at hmem
          exact hmem
        split at hok
        · exact ih cs cs2 name v entry hok hndrest hmem2 hentry hstrat htype
        · rename_i entryN hsch
          split at hok
          · exact absurd hok (by simp)
          · rename_i csMid happ
            obtain ⟨hs1, hv1⟩ := applyStrategy_ok_frame cs csMid _ n w happ
            have hentryMid : assocFind csMid.schema name = some entry := by
              rw [hs1]
              exact hentry
            exact ih csMid cs2 name v entry hok hndrest hmem2 hentryMid hstrat htype

/-- C4: `cast_for` never returns the registered prototype itself — the
returned cast carries a freshly allocated object identity, different from
the prototype's; its `_depth` is the prototype's depth plus one; and its
settings are the cloned prototype's settings customized with the resolving
cast's own settings, so that a per-call option (a setting declared with
the default `customize` method and no type check) present in the resolving
cast's settings reappears unchanged in the freshly resolved cast. -/
theorem C4_spec (globalMap : List (Mm × PyCast)) (self : PyCast) (mm : Mm)
    (pick : Mm → List Mm → Option Mm) (fresh : Nat)
    (closest : Mm) (proto : PyCast) (result : PyCast) (fresh2 : Nat)
    (globalAfter : List (Mm × PyCast))
    (hpick : pick mm (assocKeys (buildChoices globalMap self.mmToCast).1) =
      some closest)
    (hproto : assocFind (buildChoices globalMap self.mmToCast).1 closest =
      some proto)
    (hfresh : proto.oid < fresh)
    (hok : cast_for globalMap self mm pick fresh =
      Except.ok (result, fresh2, globalAfter)) :
    result.oid ≠ proto.oid ∧
    result.depth = proto.depth + 1 ∧
    ∃ cs1, castCopy proto
        [("from_", optClassToSVal mm.fromClass),
         ("to", optClassToSVal mm.toClass)] fresh =
        Except.ok (PyCast.mk fresh 0 cs1 proto.mmToCast, fresh + 1) ∧
      cs1.customize self.settings.values = Except.ok result.settings ∧
      (∀ name v entry, (assocKeys self.settings.values).Nodup →
        assocFind self.settings.values name = some v →
        assocFind cs1.schema name = some entry →
        entry.customizeStrategy = Option.none →
        entry.typeCheck = Option.none →
        assocFind result.settings.values name = some v) := by
  unfold cast_for at hok
  split at hok
  · exact absurd hok (by simp)
  · rename_i closest1 hpick1
    rw [hpick] at hpick1
    have hc : closest = closest1 := by injection hpick1
    rw [← hc] at hok
    split at hok
    · rename_i hfind1
      rw [hproto] at hfind1
      exact absurd hfind1 (by simp)
    · rename_i proto1 hfind1
      rw [hproto] at hfind1
      have hp : proto = proto1 := by injection hfind1
      rw [← hp] at hok
      split at hok
      · exact absurd hok (by simp)
      · rename_i newCast freshMid hcc
        split at hok
        · exact absurd hok (by simp)
        · rename_i cs2 hcust
          simp only [Except.ok.injEq, Prod.mk.injEq] at hok
          obtain ⟨hres, hfr, _⟩ := hok
          subst hres
          have hccShape : ∃ cs1,
              proto.settings.updateList
                [("from_", optClassToSVal mm.fromClass),
                 ("to", optClassToSVal mm.toClass)] = Except.ok cs1 ∧
              newCast = PyCast.mk fresh 0 cs1 proto.mmToCast ∧
              freshMid = fresh + 1 := by
            unfold castCopy at hcc
            split at hcc
            · exact absurd hcc (by simp)
            · rename_i cs1 hup
              simp only [Except.ok.injEq, Prod.mk.injEq] at hcc
              exact ⟨cs1, hup, hcc.1.symm, hcc.2.symm⟩
          obtain ⟨cs1, hup, hnc, hfm⟩ := hccShape
          subst hnc
          subst hfm
          refine ⟨?_, ?_, cs1, ?_, ?_, ?_⟩
          · simp only [PyCast.oid]
            exact fun h => absurd (h ▸ hfresh) (lt_irrefl _)
          · simp only [PyCast.depth]
          · unfold castCopy
            rw [hup]
          · simpa only [PyCast.settings] using hcust
          · intro name v entry hnd hval hentry hstrat htype
            simp only [PyCast.settings]
            exact customize_ok_setitem_lookup self.settings.values cs1 cs2
              name v entry (by simpa only [PyCast.settings] using hcust)
              hnd hval hentry hstrat htype

/-- C5: the candidate set searched by `cast_for` is the union of the
process-wide registry and the resolving cast's local `mm_to_cast` map,
with the local entry winning on a key present in both; a successful
`cast_for` hands the global registry back unchanged; and `register`
extends the global registry additively, leaving all other keys intact. -/
theorem C5_spec (globalMap localMap : List (Mm × PyCast)) (mm : Mm) (c : PyCast)
    (self : PyCast) (query : Mm) (pick : Mm → List Mm → Option Mm) (fresh : Nat)
    (hnd : (assocKeys localMap).Nodup) :
    (∀ k, assocFind (buildChoices globalMap localMap).1 k =
      ((assocFind localMap k).elim (assocFind globalMap k) some)) ∧
    (buildChoices globalMap localMap).2 = globalMap ∧
    (∀ result fresh2 globalAfter,
      cast_for globalMap self query pick fresh =
        Except.ok (result, fresh2, globalAfter) → globalAfter = globalMap) ∧
    assocFind (register globalMap mm c) mm = some c ∧
    (∀ k, k ≠ mm → assocFind (register globalMap mm c) k = assocFind globalMap k) := by
  refine ⟨fun k => ?_, rfl, ?_, ?_, fun k hk => ?_⟩
  · exact assocFind_assocUpdate globalMap localMap k hnd
  · intro result fresh2 globalAfter hok
    unfold cast_for at hok
    split at hok
    · exact absurd hok (by simp)
    · split at hok
      · exact absurd hok (by simp)
      · split at hok
        · exact absurd hok (by simp)
        · split at hok
          · exact absurd hok (by simp)
          · simp only [Except.ok.injEq, Prod.mk.injEq] at hok
            rw [← hok.2.2]
            rfl
  · unfold register
    rw [assocFind_assocSet, if_pos rfl]
  · unfold register
    rw [assocFind_assocSet, if_neg (fun h => hk h.symm)]

/-- The schema shared by the concrete casts below: the base settings
`from_` and `to` plus a user setting `msg`, all undecorated. -/
def protoSchema : List (String × SettingEntry) :=
  [("from_", entryPlain), ("to", entryPlain), ("msg", entryPlain)]

/-- Settings of a registered prototype. -/
def protoSettings : CastSettings :=
  ⟨protoSchema, [("from_", SVal.none), ("to", SVal.none), ("msg", SVal.str "")]⟩

/-- A registered prototype cast. -/
def c4Proto : PyCast := PyCast.mk 0 0 protoSettings []

/-- Settings of a resolving cast carrying the per-call option `msg`. -/
def selfSettings : CastSettings := ⟨protoSchema, [("msg", SVal.str "hi")]⟩

/-- A resolving cast with an empty local registry. -/
def c4Self : PyCast := PyCast.mk 1 0 selfSettings []

/-- A concrete metamorphosis. -/
def c4Mm : Mm := ⟨some "list", some "list", Option.none, Option.none⟩

/-- A one-entry global registry. -/
def c4Global : List (Mm × PyCast) := [(c4Mm, c4Proto)]

/-- A concrete closest-match function: pick the first candidate. -/
def c4Pick : Mm → List Mm → Option Mm := fun _ keys => keys.head?

/-- The settings of the cast returned by `cast_for` in the concrete run. -/
def c4ResultSettings : CastSettings :=
  ⟨protoSchema,
   [("from_", SVal.str "list"), ("to", SVal.str "list"), ("msg", SVal.str "hi")]⟩

/-- C4 (witness): the statement evaluated on a concrete registry,
prototype and resolving cast. -/
theorem C4_witness :
    (PyCast.mk 5 1 c4ResultSettings []).oid ≠ c4Proto.oid ∧
    (PyCast.mk 5 1 c4ResultSettings []).depth = c4Proto.depth + 1 ∧
    ∃ cs1, castCopy c4Proto
        [("from_", optClassToSVal c4Mm.fromClass),
         ("to", optClassToSVal c4Mm.toClass)] 5 =
        Except.ok (PyCast.mk 5 0 cs1 c4Proto.mmToCast, 5 + 1) ∧
      cs1.customize c4Self.settings.values =
        Except.ok (PyCast.mk 5 1 c4ResultSettings []).settings ∧
      (∀ name v entry, (assocKeys c4Self.settings.values).Nodup →
        assocFind c4Self.settings.values name = some v →
        assocFind cs1.schema name = some entry →
        entry.customizeStrategy = Option.none →
        entry.typeCheck = Option.none →
        assocFind (PyCast.mk 5 1 c4ResultSettings []).settings.values name =
          some v) :=
  C4_spec c4Global c4Self c4Mm c4Pick 5 c4Mm c4Proto
    (PyCast.mk 5 1 c4ResultSettings []) 6 c4Global
    (by rfl) (by rfl) (by decide) (by rfl)

/-- A cast registered locally under the same metamorphosis as the global
prototype. -/
def c5LocalCast : PyCast := PyCast.mk 2 0 protoSettings []

/-- A metamorphosis not yet registered globally. -/
def c5Mm2 : Mm := ⟨some "int", some "str", Option.none, Option.none⟩

/-- A cast to register under `c5Mm2`. -/
def c5NewCast : PyCast := PyCast.mk 3 0 protoSettings []

/-- C5 (witness): the statement evaluated on a concrete global registry, a
colliding local map, and a concrete registration. -/
theorem C5_witness :
    (∀ k, assocFind (buildChoices c4Global [(c4Mm, c5LocalCast)]).1 k =
      ((assocFind [(c4Mm, c5LocalCast)] k).elim (assocFind c4Global k) some)) ∧
    (buildChoices c4Global [(c4Mm, c5LocalCast)]).2 = c4Global ∧
    (∀ result fresh2 globalAfter,
      cast_for c4Global c4Self c4Mm c4Pick 5 =
        Except.ok (result, fresh2, globalAfter) → globalAfter = c4Global) ∧
    assocFind (register c4Global c5Mm2 c5NewCast) c5Mm2 = some c5NewCast ∧
    (∀ k, k ≠ c5Mm2 → assocFind (register c4Global c5Mm2 c5NewCast) k =
      assocFind c4Global k) :=
  C5_spec c4Global [(c4Mm, c5LocalCast)] c5Mm2 c5NewCast c4Self c4Mm c4Pick 5
    (by decide)

/-! ## Per-item converter lookup (`daccasts.py` and `containercast.py`, claim C2)

`CastItems.cast_for_item` (daccasts.py lines 233-252) and the legacy
`ContainerCast.cast_for_item` (containercast.py lines 59-75) both pick the
converter for an item in the order: per-key override table, blanket value
converter, registry resolution.  Item keys can be attribute names or
integer indices, embedded as `SchemaKey`.
-/

/-- The per-item state a `CastItems` mixin reads: the `key_to_cast`,
`value_cast` and `key_cast` settings, and the `get_item_from` /
`get_item_to` hooks (returning `none` for `NotImplemented`). -/
structure CastItemsCtx where
  key_to_cast : List (SchemaKey × PyCast)
  value_cast : Option PyCast
  itemFrom : SchemaKey → Option String
  itemTo : SchemaKey → Option String

/-- CastItems.get_item_mm (daccasts.py lines 222-231): take the declared
source type or guess `type(value)`, and build `Mm(from_, to_any=object)`
when no destination type is declared. -/
def get_item_mm (ctx : CastItemsCtx) (key : SchemaKey) (value : SVal) : Mm :=
  let from_ := (ctx.itemFrom key).getD (svalTypeName value)
  match ctx.itemTo key with
  | Option.none =>
      { fromClass := some from_, toClass := Option.none,
        fromAnyClass := Option.none, toAnyClass := some "object" }
  | some toClass =>
      { fromClass := some from_, toClass := some toClass,
        fromAnyClass := Option.none, toAnyClass := Option.none }

/-- Modelled from the spec: `build_customized` is called by
`CastItems.cast_for_item` (daccasts.py lines 245 and 248) but defined in a
version of `base.py` absent from the source tree; per the spec (section
4.3 step 4) it clones the given cast, configures it for the given
metamorphosis, increments the clone's depth and customizes it with the
calling cast's settings. -/
def build_customized (callerSettings : List (String × SVal)) (cast : PyCast)
    (mm : Mm) (fresh : Nat) : Except PyErr (PyCast × Nat) :=
  match castCopy cast
      [("from_", optClassToSVal mm.fromClass),
       ("to", optClassToSVal mm.toClass)] fresh with
  | Except.error e => Except.error e
  | Except.ok (newCast, fresh2) =>
      match newCast.settings.customize callerSettings with
      | Except.error e => Except.error e
      | Except.ok cs2 =>
          Except.ok (PyCast.mk newCast.oid (cast.depth + 1) cs2 cast.mmToCast,
            fresh2)

/-- CastItems.cast_for_item (daccasts.py lines 233-252): per-key table
first, then the blanket `value_cast`, then `Cast.cast_for` on the item's
metamorphosis. -/
def cast_for_item (globalMap : List (Mm × PyCast)) (self : PyCast)
    (ctx : CastItemsCtx) (pick : Mm → List Mm → Option Mm)
    (key : SchemaKey) (value : SVal) (fresh : Nat) :
    Except PyErr (PyCast × Nat) :=
  match assocFind ctx.key_to_cast key with
  | some cast =>
      build_customized self.settings.values cast (get_item_mm ctx key value) fresh
  | Option.none =>
      match ctx.value_cast with
      | some cast =>
          build_customized self.settings.values cast (get_item_mm ctx key value) fresh
      | Option.none =>
          match cast_for globalMap self (get_item_mm ctx key value) pick fresh with
          | Except.error e => Except.error e
          | Except.ok (c, f2, _) => Except.ok (c, f2)

/-- The per-item state the legacy `ContainerCast` reads: the
`index_to_cast`, `index_to_mm` and `element_cast` settings, and the
`get_mm` hook. -/
structure ContainerCastCtx where
  index_to_cast : List (SchemaKey × PyCast)
  index_to_mm : List (SchemaKey × Mm)
  element_cast : Option PyCast
  getMm : SchemaKey → SVal → Mm

/-- ContainerCast.cast_for_item (containercast.py lines 59-75): per-index
table first (the found cast is copied), then `element_cast` (returned
as-is), then `Cast.cast_for` on the metamorphosis taken from `index_to_mm`
or improvised by `get_mm`. -/
def container_cast_for_item (globalMap : List (Mm × PyCast)) (self : PyCast)
    (ctx : ContainerCastCtx) (pick : Mm → List Mm → Option Mm)
    (index : SchemaKey) (value : SVal) (fresh : Nat) :
    Except PyErr (PyCast × Nat) :=
  match assocFind ctx.index_to_cast index with
  | some cast => castCopy cast [] fresh
  | Option.none =>
      match ctx.element_cast with
      | some cast => Except.ok (cast, fresh)
      | Option.none =>
          match cast_for globalMap self
              ((assocFind ctx.index_to_mm index).getD (ctx.getMm index value))
              pick fresh with
          | Except.error e => Except.error e
          | Except.ok (c, f2, _) => Except.ok (c, f2)

/-- C2: in both `CastItems.cast_for_item` and
`ContainerCast.cast_for_item`, the converter for an item is chosen with
the fixed priority per-key override table, then blanket value converter,
then registry resolution via `cast_for` on the per-item metamorphosis; in
particular a per-key entry wins even when the blanket converter is also
set. -/
theorem C2_spec (globalMap : List (Mm × PyCast)) (self : PyCast)
    (ctx : CastItemsCtx) (cctx : ContainerCastCtx)
    (pick : Mm → List Mm → Option Mm) (key index0 : SchemaKey) (value : SVal)
    (fresh : Nat) :
    (∀ cast, assocFind ctx.key_to_cast key = some cast →
      cast_for_item globalMap self ctx pick key value fresh =
        build_customized self.settings.values cast (get_item_mm ctx key value)
          fresh) ∧
    (∀ cast, assocFind ctx.key_to_cast key = Option.none →
      ctx.value_cast = some cast →
      cast_for_item globalMap self ctx pick key value fresh =
        build_customized self.settings.values cast (get_item_mm ctx key value)
          fresh) ∧
    (assocFind ctx.key_to_cast key = Option.none →
      ctx.value_cast = Option.none →
      (∀ c f2 gAfter,
        cast_for globalMap self (get_item_mm ctx key value) pick fresh =
          Except.ok (c, f2, gAfter) →
        cast_for_item globalMap self ctx pick key value fresh =
          Except.ok (c, f2)) ∧
      (∀ e, cast_for globalMap self (get_item_mm ctx key value) pick fresh =
          Except.error e →
        cast_for_item globalMap self ctx pick key value fresh =
          Except.error e)) ∧
    (∀ cast, assocFind cctx.index_to_cast index0 = some cast →
      container_cast_for_item globalMap self cctx pick index0 value fresh =
        castCopy cast [] fresh) ∧
    (∀ cast, assocFind cctx.index_to_cast index0 = Option.none →
      cctx.element_cast = some cast →
      container_cast_for_item globalMap self cctx pick index0 value fresh =
        Except.ok (cast, fresh)) ∧
    (assocFind cctx.index_to_cast index0 = Option.none →
      cctx.element_cast = Option.none →
      (∀ c f2 gAfter,
        cast_for globalMap self
            ((assocFind cctx.index_to_mm index0).getD (cctx.getMm index0 value))
            pick fresh = Except.ok (c, f2, gAfter) →
        container_cast_for_item globalMap self cctx pick index0 value fresh =
          Except.ok (c, f2))) := by
  refine ⟨fun cast h1 => ?_, fun cast h1 h2 => ?_, fun h1 h2 => ⟨?_, ?_⟩,
    fun cast h1 => ?_, fun cast h1 h2 => ?_, fun h1 h2 => ?_⟩
  · simp [cast_for_item, h1]
  · simp [cast_for_item, h1, h2]
  · intro c f2 gAfter h3
    simp [cast_for_item, h1, h2, h3]
  · intro e h3
    simp [cast_for_item, h1, h2, h3]
  · simp [container_cast_for_item, h1]
  · simp [container_cast_for_item, h1, h2]
  · intro c f2 gAfter h3
    simp [container_cast_for_item, h1, h2, h3]

/-- A cast sitting in a per-key override table. -/
def c2KeyCast : PyCast := PyCast.mk 7 0 protoSettings []

/-- A blanket value cast, set at the same time as the per-key entry. -/
def c2BlanketCast : PyCast := PyCast.mk 8 0 protoSettings []

/-- A `CastItems` state in which both a per-key entry for `b` and a
blanket value cast apply. -/
def c2Ctx : CastItemsCtx :=
  ⟨[(SchemaKey.str "b", c2KeyCast)], some c2BlanketCast,
   fun _ => Option.none, fun _ => Option.none⟩

/-- A `ContainerCast` state in which both a per-index entry for `2` and an
element cast apply. -/
def c2Cctx : ContainerCastCtx :=
  ⟨[(SchemaKey.int 2, c2KeyCast)], [], some c2BlanketCast,
   fun _ v =>
     { fromClass := some (svalTypeName v), toClass := some "object",
       fromAnyClass := Option.none, toAnyClass := Option.none }⟩

/-- C2 (witness): the priority statement evaluated on concrete states in
which the per-key table and the blanket converter overlap. -/
theorem C2_witness :
    (∀ cast, assocFind c2Ctx.key_to_cast (SchemaKey.str "b") = some cast →
      cast_for_item c4Global c4Self c2Ctx c4Pick (SchemaKey.str "b")
          (SVal.int 78) 9 =
        build_customized c4Self.settings.values cast
          (get_item_mm c2Ctx (SchemaKey.str "b") (SVal.int 78)) 9) ∧
    (∀ cast, assocFind c2Ctx.key_to_cast (SchemaKey.str "b") = Option.none →
      c2Ctx.value_cast = some cast →
      cast_for_item c4Global c4Self c2Ctx c4Pick (SchemaKey.str "b")
          (SVal.int 78) 9 =
        build_customized c4Self.settings.values cast
          (get_item_mm c2Ctx (SchemaKey.str "b") (SVal.int 78)) 9) ∧
    (assocFind c2Ctx.key_to_cast (SchemaKey.str "b") = Option.none →
      c2Ctx.value_cast = Option.none →
      (∀ c f2 gAfter,
        cast_for c4Global c4Self
            (get_item_mm c2Ctx (SchemaKey.str "b") (SVal.int 78)) c4Pick 9 =
          Except.ok (c, f2, gAfter) →
        cast_for_item c4Global c4Self c2Ctx c4Pick (SchemaKey.str "b")
            (SVal.int 78) 9 = Except.ok (c, f2)) ∧
      (∀ e, cast_for c4Global c4Self
            (get_item_mm c2Ctx (SchemaKey.str "b") (SVal.int 78)) c4Pick 9 =
          Except.error e →
        cast_for_item c4Global c4Self c2Ctx c4Pick (SchemaKey.str "b")
            (SVal.int 78) 9 = Except.error e)) ∧
    (∀ cast, assocFind c2Cctx.index_to_cast (SchemaKey.int 2) = some cast →
      container_cast_for_item c4Global c4Self c2Cctx c4Pick (SchemaKey.int 2)
          (SVal.int 78) 9 = castCopy cast [] 9) ∧
    (∀ cast, assocFind c2Cctx.index_to_cast (SchemaKey.int 2) = Option.none →
      c2Cctx.element_cast = some cast →
      container_cast_for_item c4Global c4Self c2Cctx c4Pick (SchemaKey.int 2)
          (SVal.int 78) 9 = Except.ok (cast, 9)) ∧
    (assocFind c2Cctx.index_to_cast (SchemaKey.int 2) = Option.none →
      c2Cctx.element_cast = Option.none →
      (∀ c f2 gAfter,
        cast_for c4Global c4Self
            ((assocFind c2Cctx.index_to_mm (SchemaKey.int 2)).getD
              (c2Cctx.getMm (SchemaKey.int 2) (SVal.int 78))) c4Pick 9 =
          Except.ok (c, f2, gAfter) →
        container_cast_for_item c4Global c4Self c2Cctx c4Pick (SchemaKey.int 2)
            (SVal.int 78) 9 = Except.ok (c, f2))) :=
  C2_spec c4Global c4Self c2Ctx c2Cctx c4Pick (SchemaKey.str "b")
    (SchemaKey.int 2) (SVal.int 78) 9

/-! ## Order of converted items (`daccasts.py` / `containercast.py`, claim C9)

`CastItems.iter_output` (daccasts.py lines 208-220) consumes the item
stream sequentially: strip check, converter application, optional key
conversion, yield.  `FromListMixin.iter_input` enumerates a list and
`ToListMixin.build_output` rebuilds one in iteration order
(containercast.py lines 114-126).  Converter application is abstracted by
the function the resolved cast denotes on the item. -/

/-- Optional key conversion (`if self.key_cast: key = self.key_cast(key)`,
daccasts.py line 219). -/
def applyKeyCast (keyCastF : Option (SchemaKey → SchemaKey)) (k : SchemaKey) :
    SchemaKey :=
  match keyCastF with
  | some kc => kc k
  | Option.none => k

/-- CastItems.iter_output (daccasts.py lines 208-220). -/
def iter_output (strip : SchemaKey → SVal → Bool)
    (keyCastF : Option (SchemaKey → SchemaKey))
    (castApply : SchemaKey → SVal → SVal) :
    List (SchemaKey × SVal) → List (SchemaKey × SVal)
  | [] => []
  | (key, value) :: rest =>
      if strip key value then iter_output strip keyCastF castApply rest
      else (applyKeyCast keyCastF key, castApply key value) ::
        iter_output strip keyCastF castApply rest

/-- ContainerCast.iter_output (containercast.py lines 77-80): no strip
hook and no key conversion in the legacy variant. -/
def container_iter_output (castApply : SchemaKey → SVal → SVal) :
    List (SchemaKey × SVal) → List (SchemaKey × SVal)
  | [] => []
  | (i, v) :: rest => (i, castApply i v) :: container_iter_output castApply rest

/-- FromListMixin.iter_input (containercast.py lines 114-117):
`enumerate(inpt)`. -/
def iter_input_list (elems : List SVal) : List (SchemaKey × SVal) :=
  elems.enum.map (fun p => (SchemaKey.int (Int.ofNat p.1), p.2))

/-- ToListMixin.build_output (containercast.py lines 123-126): keep the
values, in iteration order. -/
def build_output_list (items : List (SchemaKey × SVal)) : List SVal :=
  items.map Prod.snd

/-- ContainerCast.call (containercast.py lines 82-85) for a list source
and list destination. -/
def container_call_list (castApply : SchemaKey → SVal → SVal)
    (elems : List SVal) : List SVal :=
  build_output_list (container_iter_output castApply (iter_input_list elems))

theorem container_pipeline_get (castApply : SchemaKey → SVal → SVal)
    (elems : List SVal) : ∀ (n i : Nat),
    (build_output_list (container_iter_output castApply
      ((List.enumFrom n elems).map
        (fun p => (SchemaKey.int (Int.ofNat p.1), p.2))))).get? i =
    (elems.get? i).map (fun v => castApply (SchemaKey.int (Int.ofNat (n + i))) v) := by
  induction elems with
  | nil => intro n i; simp [build_output_list, container_iter_output]
  | cons e es ih =>
      intro n i
      cases i with
      | zero =>
          simp [List.enumFrom, build_output_list, container_iter_output]
      | succ j =>
          have hrec := ih (n + 1) j
          simp only [List.enumFrom, List.map_cons, container_iter_output,
            build_output_list, List.get?] at hrec ⊢
          rw [hrec]
          have harith : n + 1 + j = n + (j + 1) := by omega
          rw [harith]

/-- C9: the keys of `iter_output`'s stream are exactly the (key-converted)
keys of the non-stripped input items, in the order the decomposition
yielded them; and the list-to-list container pipeline preserves element
order: the output has the input's length and its `i`-th element is the
converted `i`-th input element. -/
theorem C9_spec (strip : SchemaKey → SVal → Bool)
    (keyCastF : Option (SchemaKey → SchemaKey))
    (castApply : SchemaKey → SVal → SVal)
    (items : List (SchemaKey × SVal)) (elems : List SVal) :
    (iter_output strip keyCastF castApply items).map Prod.fst =
      (items.filter (fun kv => !(strip kv.1 kv.2))).map
        (fun kv => applyKeyCast keyCastF kv.1) ∧
    (container_call_list castApply elems).length = elems.length ∧
    (∀ i, (container_call_list castApply elems).get? i =
      (elems.get? i).map (fun v => castApply (SchemaKey.int (Int.ofNat i)) v)) := by
  refine ⟨?_, ?_, fun i => ?_⟩
  · induction items with
    | nil => simp [iter_output]
    | cons hd rest ih =>
        obtain ⟨k, v⟩ := hd
        by_cases h : strip k v
        · simp [iter_output, h, List.filter, ih]
        · simp [iter_output, h, List.filter, ih]
  · have hlen : ∀ l : List (SchemaKey × SVal),
        (container_iter_output castApply l).length = l.length := by
      intro l
      induction l with
      | nil => rfl
      | cons hd rest ih2 =>
          obtain ⟨k, v⟩ := hd
          simp [container_iter_output, ih2]
    simp [container_call_list, build_output_list, hlen, iter_input_list,
      List.enum]
  · have h := container_pipeline_get castApply elems 0 i
    simpa [container_call_list, iter_input_list, List.enum] using h

/-! ## Aliasing across a conversion (claim C6)

Object identity of lists is made explicit by an `oid` tag;
`ToListMixin.build_output` (containercast.py lines 123-126) is a list
comprehension and therefore allocates a new list object.  The `Identity`
cast lives in `stacks/basicstack.py`, absent from the source tree, and is
modelled from the specification (section 8, Identity): a conversion whose
destination type equals the input's type returns a value equal to the
input, and for a mutable container it never returns the same container
instance. -/

/-- A Python list object: its identity and its elements. -/
structure PyList where
  oid : Nat
  elems : List SVal

/-- Modelled from the spec: `Identity.call` of the absent
`stacks/basicstack.py`, on a mutable list input; per section 8 of the
specification it returns an equal value that is never the same container
instance, so the identity conversion of a list allocates a fresh, equal
list. -/
def identityCall (inpt : PyList) (fresh : Nat) : PyList × Nat :=
  (⟨fresh, inpt.elems⟩, fresh + 1)

/-- ToListMixin.build_output with explicit allocation: the comprehension
`[value for index, value in items_iter]` builds a new list object. -/
def build_output_list_alloc (items : List (SchemaKey × SVal)) (fresh : Nat) :
    PyList × Nat :=
  (⟨fresh, items.map Prod.snd⟩, fresh + 1)

/-- ContainerCast.call for a list input and list destination, with
explicit allocation of the output list. -/
def container_call_list_alloc (castApply : SchemaKey → SVal → SVal)
    (inpt : PyList) (fresh : Nat) : PyList × Nat :=
  build_output_list_alloc
    (container_iter_output castApply (iter_input_list inpt.elems)) fresh

/-- A concrete mutable list `[1, 2]`. -/
def c6AList : PyList := ⟨0, [SVal.int 1, SVal.int 2]⟩

/-- C6: a conversion whose destination type equals the input's mutable
container type returns an equal value that is never the same container
instance: the spec-modelled `Identity` conversion of a list returns an
equal list under a fresh identity, and the `ToListMixin.build_output`
pipeline allocates a new list whose value equals the input's under
identity element casts. -/
theorem C6_spec (castApply : SchemaKey → SVal → SVal) (inpt : PyList)
    (fresh : Nat) (hfresh : inpt.oid < fresh) :
    (identityCall inpt fresh).1.elems = inpt.elems ∧
    (identityCall inpt fresh).1.oid ≠ inpt.oid ∧
    (container_call_list_alloc castApply inpt fresh).1.oid ≠ inpt.oid ∧
    (container_call_list_alloc castApply inpt fresh).1.oid = fresh ∧
    ((∀ k v, castApply k v = v) →
      (container_call_list_alloc castApply inpt fresh).1.elems = inpt.elems) := by
  refine ⟨rfl, ?_, ?_, rfl, fun hid => ?_⟩
  · simp only [identityCall]
    exact fun h => absurd (h ▸ hfresh) (lt_irrefl _)
  · simp only [container_call_list_alloc, build_output_list_alloc]
    exact fun h => absurd (h ▸ hfresh) (lt_irrefl _)
  · apply List.ext_get?
    intro n
    have h := container_pipeline_get castApply inpt.elems 0 n
    simp only [container_call_list_alloc, build_output_list_alloc,
      build_output_list, iter_input_list, List.enum] at h ⊢
    rw [h]
    cases hv : inpt.elems.get? n <;> simp [hv, hid]

/-- C6 (witness): the statement on the concrete list `[1, 2]` with
identity element casts. -/
theorem C6_witness :
    (identityCall c6AList 3).1.elems = c6AList.elems ∧
    (identityCall c6AList 3).1.oid ≠ c6AList.oid ∧
    (container_call_list_alloc (fun _ v => v) c6AList 3).1.oid ≠ c6AList.oid ∧
    (container_call_list_alloc (fun _ v => v) c6AList 3).1.oid = 3 ∧
    ((∀ k v, (fun (_ : SchemaKey) (v : SVal) => v) k v = v) →
      (container_call_list_alloc (fun _ v => v) c6AList 3).1.elems =
        c6AList.elems) :=
  C6_spec (fun _ v => v) c6AList 3 (by decide)

/-! ## Cycles in decomposition (`daccasts.py` lines 75-78, claim C3)

`DivideAndConquerCast.call` is
`build_output(iter_output(iter_input(inpt)))` — plain recursion with no
cycle guard; no `CyclicStructureError` (nor any cycle check) exists
anywhere in the source tree.  The object graph is made explicit (object
ids mapping to atoms or records of sub-object ids) so a self-referential
value is expressible, and recursion depth is bounded by explicit fuel to
keep the embedding total: `outOfFuel` marks a conversion that is still
recursing at that depth.  The modelled code path (lines 75-78) contains no
`raise`, so an outcome is a finished value or exhausted fuel. -/

/-- A node of a Python object graph: an atom, or a record whose named
attributes reference other nodes. -/
inductive ObjContent where
  | atom (v : SVal)
  | obj (items : List (String × Nat))

/-- Outcome of a depth-bounded run of `DivideAndConquerCast.call`. -/
inductive CallOutcome where
  | done (v : SVal)
  | outOfFuel

mutual

/-- DivideAndConquerCast.call (daccasts.py lines 75-78) on the object
graph `g`: decompose the node into items, convert each recursively,
recompose into a mapping. -/
def dac_call (g : Nat → ObjContent) : Nat → Nat → CallOutcome
  | 0, _ => CallOutcome.outOfFuel
  | fuel + 1, v =>
      match g v with
      | ObjContent.atom a => CallOutcome.done a
      | ObjContent.obj items => dac_call_items g fuel items []
termination_by fuel v => (fuel, 0)

/-- The item loop of `iter_output`/`build_output`: convert the items in
order and accumulate the results. -/
def dac_call_items (g : Nat → ObjContent) (fuel : Nat) :
    List (String × Nat) → List (String × SVal) → CallOutcome
  | [], acc => CallOutcome.done (SVal.dict acc.reverse)
  | (k, w) :: rest, acc =>
      match dac_call g fuel w with
      | CallOutcome.done x => dac_call_items g fuel rest ((k, x) :: acc)
      | CallOutcome.outOfFuel => CallOutcome.outOfFuel
termination_by items acc => (fuel, items.length + 1)

end

/-- The conversion of node `v` exhausts every recursion-depth bound:
it neither finishes nor raises. -/
def divergesAt (g : Nat → ObjContent) (v : Nat) : Prop :=
  ∀ fuel, dac_call g fuel v = CallOutcome.outOfFuel

theorem dac_call_items_stuck (g : Nat → ObjContent) (fuel : Nat) (v : Nat)
    (hdiv : dac_call g fuel v = CallOutcome.outOfFuel) :
    ∀ (items : List (String × Nat)) (acc : List (String × SVal)),
      v ∈ items.map Prod.snd →
      dac_call_items g fuel items acc = CallOutcome.outOfFuel := by
  intro items
  induction items with
  | nil => intro acc hmem; exact absurd hmem (by simp)
  | cons hd rest ih =>
      intro acc hmem
      obtain ⟨k, w⟩ := hd
      unfold dac_call_items
      rw [List.map_cons, List.mem_cons] at hmem
      cases hw : dac_call g fuel w with
      | done x =>
          have hv : v ∈ rest.map Prod.snd := by
            rcases hmem with h | h
            · rw [h] at hdiv
              rw [hw] at hdiv
              exact CallOutcome.noConfusion hdiv
            · exact h
          exact ih _ hv
      | outOfFuel => rfl

theorem selfref_diverges (g : Nat → ObjContent) (v : Nat)
    (items : List (String × Nat)) (hv : g v = ObjContent.obj items)
    (hmem : v ∈ items.map Prod.snd) :
    ∀ fuel, dac_call g fuel v = CallOutcome.outOfFuel := by
  intro fuel
  induction fuel with
  | zero => simp [dac_call]
  | succ n ih =>
      unfold dac_call
      rw [hv]
      exact dac_call_items_stuck g n v ih items [] hmem

/-- The self-referential object of the spec's cycle scenario: a single
object whose attribute `me` points back to itself. -/
def c3Graph : Nat → ObjContent := fun _ => ObjContent.obj [("me", 0)]

/-- C3 (counterexample): on the self-referential object,
`DivideAndConquerCast.call` diverges — for every recursion-depth bound it
is still recursing, so it neither terminates nor raises; in particular no
`CyclicStructureError` is raised (no such error exists in the source). -/
theorem C3_counterexample :
    c3Graph 0 = ObjContent.obj [("me", 0)] ∧ divergesAt c3Graph 0 :=
  ⟨rfl, selfref_diverges c3Graph 0 [("me", 0)] rfl (by simp)⟩

/-- C3 (amended): `DivideAndConquerCast.call` has no cycle guard: for any
object graph node whose decomposition items contain the node itself, the
conversion recurses unboundedly — it exhausts every depth bound and never
raises a `CyclicStructureError` (which does not exist in the code). -/
theorem C3_amended_spec (g : Nat → ObjContent) (v : Nat)
    (items : List (String × Nat)) (hv : g v = ObjContent.obj items)
    (hmem : v ∈ items.map Prod.snd) :
    ∀ fuel, dac_call g fuel v = CallOutcome.outOfFuel :=
  selfref_diverges g v items hv hmem

/-- C3 (witness): the amended statement evaluated on the concrete
self-referential object at depth bound 100. -/
theorem C3_witness :
    c3Graph 0 = ObjContent.obj [("me", 0)] ∧
    dac_call c3Graph 100 0 = CallOutcome.outOfFuel :=
  ⟨rfl, C3_amended_spec c3Graph 0 [("me", 0)] rfl (by simp) 100⟩

/-! ## Object identity of setting values (`base.py`, claim C10)

The pure `CastSettings` model above captures setting values; this store
model additionally captures which dictionary objects they are, so that
aliasing between a configuration store and a settings donor is
expressible.  Mutable dictionaries live in a store indexed by object id;
scalars are immutable.  `copy.copy` allocates, `dict.update` mutates in
place.  The value loops of `override` and `customize` (base.py lines
134-137 and 144-150) are the same loop up to the strategy column consulted
and the treatment of undeclared names, so they are embedded as one fold
with those two parameters; the schema merge of `override` (lines 128-133)
manipulates only the pure schema records and cannot touch the store. -/

/-- A setting value in the store model: immutable scalars, or a reference
to a mutable dictionary object in the store. -/
inductive HVal where
  | none
  | int (n : Int)
  | str (s : String)
  | bool (b : Bool)
  | ref (oid : Nat)
deriving DecidableEq

/-- The store of dictionary objects, with its allocation counter. -/
structure Store where
  dicts : List (Nat × List (String × HVal))
  nextId : Nat
deriving DecidableEq

/-- Content of the dictionary object `oid`. -/
def storeGet (st : Store) (oid : Nat) : Option (List (String × HVal)) :=
  assocFind st.dicts oid

/-- Allocate a new dictionary object holding `content`. -/
def storeAlloc (st : Store) (content : List (String × HVal)) : Store × Nat :=
  (⟨st.dicts ++ [(st.nextId, content)], st.nextId + 1⟩, st.nextId)

/-- Replace the content of the existing dictionary object `oid` in
place. -/
def storeSet (st : Store) (oid : Nat) (content : List (String × HVal)) : Store :=
  ⟨assocSet st.dicts oid content, st.nextId⟩

/-- Every allocated object id is below the allocation counter. -/
def storeWF (st : Store) : Prop :=
  ∀ oid ∈ assocKeys st.dicts, oid < st.nextId

instance (st : Store) : Decidable (storeWF st) := by
  unfold storeWF
  exact inferInstance

/-- Python `copy.copy` in the store model: a scalar is itself, a
dictionary reference yields a reference to a fresh shallow copy. -/
def copyHVal : Store → HVal → Except PyErr (Store × HVal)
  | st, HVal.ref oid =>
      match storeGet st oid with
      | some content => Except.ok ((storeAlloc st content).1,
          HVal.ref (storeAlloc st content).2)
      | Option.none => Except.error (PyErr.keyError "dangling reference")
  | st, w => Except.ok (st, w)

/-- Python truthiness of an `HVal` (a dictionary is truthy when
non-empty). -/
def truthyHVal (st : Store) : HVal → Bool
  | HVal.none => false
  | HVal.int n => decide (n ≠ 0)
  | HVal.str s => decide (s ≠ "")
  | HVal.bool b => b
  | HVal.ref oid =>
      match storeGet st oid with
      | some [] => false
      | some (_ :: _) => true
      | Option.none => false

/-- The class name of an `HVal`, for the `isinstance` check. -/
def hvalTypeName : HVal → String
  | HVal.none => "NoneType"
  | HVal.int _ => "int"
  | HVal.str _ => "str"
  | HVal.bool _ => "bool"
  | HVal.ref _ => "dict"

/-- A `CastSettings` in the store model. -/
structure HCastSettings where
  schema : List (String × SettingEntry)
  values : List (String × HVal)
deriving DecidableEq

/-- CastSettings.__setitem__ in the store model: stores the incoming value
object (possibly an alias) without touching the store. -/
def hSetitem (st : Store) (cs : HCastSettings) (name : String) (v : HVal) :
    Except PyErr (Store × HCastSettings) :=
  match assocFind cs.schema name with
  | Option.none => Except.error (PyErr.typeError "setting is not defined")
  | some entry =>
      match entry.typeCheck with
      | Option.none =>
          Except.ok (st, { cs with values := assocSet cs.values name v })
      | some t =>
          if hvalTypeName v = t then
            Except.ok (st, { cs with values := assocSet cs.values name v })
          else Except.error (PyErr.typeError "value must be of the declared type")

/-- The truthy arm of `copy_and_update`: `new_value.update(value)` — an
in-place merge into the dictionary object `newv`, which requires both
operands to be dictionaries — followed by `self[name] = new_value`. -/
def hDictUpdateStep (st1 : Store) (cs : HCastSettings) (name : String)
    (newv v : HVal) : Except PyErr (Store × HCastSettings) :=
  match newv, v with
  | HVal.ref no, HVal.ref vo =>
      match storeGet st1 vo, storeGet st1 no with
      | some vcontent, some ncontent =>
          hSetitem (storeSet st1 no (assocUpdate ncontent vcontent)) cs
            name (HVal.ref no)
      | _, _ => Except.error (PyErr.keyError "dangling reference")
  | HVal.ref _, _ => Except.error (PyErr.typeError "update needs a mapping")
  | _, _ => Except.error (PyErr.attributeError "value has no method update")

/-- CastSettings.copy_and_update in the store model (base.py lines
152-155): `new_value = copy.copy(self.get(name, None))` (a fresh object
when the old value is a dictionary), `if new_value:
new_value.update(value)` (an in-place mutation of the fresh copy), and
`self[name] = new_value or copy.copy(value)` (a fresh copy of the
incoming value when the old one was falsy). -/
def hCopyAndUpdate (st : Store) (cs : HCastSettings) (name : String) (v : HVal) :
    Except PyErr (Store × HCastSettings) :=
  match copyHVal st ((assocFind cs.values name).getD HVal.none) with
  | Except.error e => Except.error e
  | Except.ok (st1, newv) =>
      if truthyHVal st1 newv then hDictUpdateStep st1 cs name newv v
      else
        match copyHVal st1 v with
        | Except.error e => Except.error e
        | Except.ok (st2, vcopy) => hSetitem st2 cs name vcopy

/-- Strategy dispatch in the store model. -/
def hApplyStrategy (st : Store) (cs : HCastSettings) (strat : Strategy)
    (name : String) (v : HVal) : Except PyErr (Store × HCastSettings) :=
  match strat with
  | Strategy.setitem => hSetitem st cs name v
  | Strategy.copyAndUpdate => hCopyAndUpdate st cs name v
  | Strategy.doNothing => Except.ok (st, cs)

/-- The value loop shared by `override` and `customize` (base.py lines
134-137 and 144-150): iterate the donor's name-value pairs (the loops read
a copy of the donor and never write to it); `select` picks the strategy
column and `skipUndeclared` distinguishes `customize` (silently skips an
undeclared name) from `override` (raises `KeyError`). -/
def hFoldSettings (select : SettingEntry → Strategy) (skipUndeclared : Bool)
    (st : Store) (cs : HCastSettings) :
    List (String × HVal) → Except PyErr (Store × HCastSettings)
  | [] => Except.ok (st, cs)
  | (name, v) :: rest =>
      match assocFind cs.schema name with
      | Option.none =>
          if skipUndeclared then hFoldSettings select skipUndeclared st cs rest
          else Except.error (PyErr.keyError name)
      | some entry =>
          match hApplyStrategy st cs (select entry) name v with
          | Except.error e => Except.error e
          | Except.ok (st2, cs2) =>
              hFoldSettings select skipUndeclared st2 cs2 rest

/-- CastSettings.customize in the store model. -/
def hCustomize (st : Store) (cs : HCastSettings)
    (donor : List (String × HVal)) : Except PyErr (Store × HCastSettings) :=
  hFoldSettings (fun e => e.customizeStrategy.getD Strategy.setitem) true
    st cs donor

/-- The value loop of CastSettings.override in the store model. -/
def hOverrideValues (st : Store) (cs : HCastSettings)
    (donor : List (String × HVal)) : Except PyErr (Store × HCastSettings) :=
  hFoldSettings (fun e => e.overrideStrategy.getD Strategy.setitem) false
    st cs donor

theorem assocFind_append_of_some {κ α : Type} [DecidableEq κ]
    (d e : List (κ × α)) (k : κ) (c : α) (h : assocFind d k = some c) :
    assocFind (d ++ e) k = some c := by
  induction d with
  | nil => exact absurd h (by simp [assocFind])
  | cons hd tl ih =>
      obtain ⟨k0, v0⟩ := hd
      by_cases hk : k0 = k
      · simp only [assocFind, if_pos hk] at h
        simp only [List.cons_append, assocFind, if_pos hk]
        exact h
      · simp only [assocFind, if_neg hk] at h
        simp only [List.cons_append, assocFind, if_neg hk]
        exact ih h

theorem assocKeys_assocSet_subset {κ α : Type} [DecidableEq κ]
    (d : List (κ × α)) (k : κ) (v : α) (k0 : κ)
    (h : k0 ∈ assocKeys (assocSet d k v)) : k0 ∈ assocKeys d ∨ k0 = k := by
  rw [← assocFind_isSome_iff_mem, assocFind_assocSet] at h
  by_cases hk : k = k0
  · exact Or.inr hk.symm
  · rw [if_neg hk] at h
    exact Or.inl ((assocFind_isSome_iff_mem d k0).mp h)

theorem hSetitem_store_eq (st : Store) (cs : HCastSettings) (name : String)
    (v : HVal) (st2 : Store) (cs2 : HCastSettings)
    (hok : hSetitem st cs name v = Except.ok (st2, cs2)) :
    st2 = st ∧ cs2.values = assocSet cs.values name v := by
  unfold hSetitem at hok
  split at hok
  · exact absurd hok (by simp)
  · split at hok
    · cases hok
      exact ⟨rfl, rfl⟩
    · split at hok
      · cases hok
        exact ⟨rfl, rfl⟩
      · exact absurd hok (by simp)

theorem copyHVal_ok (st : Store) (v : HVal) (st1 : Store) (w : HVal)
    (hok : copyHVal st v = Except.ok (st1, w)) :
    (st1 = st ∧ w = v ∧ ∀ o, v ≠ HVal.ref o) ∨
    (∃ o content, v = HVal.ref o ∧ storeGet st o = some content ∧
      st1 = (storeAlloc st content).1 ∧ w = HVal.ref st.nextId) := by
  cases v with
  | ref oid =>
      simp only [copyHVal] at hok
      split at hok
      · rename_i content hget
        simp only [Except.ok.injEq, Prod.mk.injEq] at hok
        exact Or.inr ⟨oid, content, rfl, hget, hok.1.symm, hok.2.symm⟩
      · exact absurd hok (by simp)
  | none =>
      simp only [copyHVal, Except.ok.injEq, Prod.mk.injEq] at hok
      exact Or.inl ⟨hok.1.symm, hok.2.symm, fun o h => by cases h⟩
  | int n =>
      simp only [copyHVal, Except.ok.injEq, Prod.mk.injEq] at hok
      exact Or.inl ⟨hok.1.symm, hok.2.symm, fun o h => by cases h⟩
  | str s =>
      simp only [copyHVal, Except.ok.injEq, Prod.mk.injEq] at hok
      exact Or.inl ⟨hok.1.symm, hok.2.symm, fun o h => by cases h⟩
  | bool b =>
      simp only [copyHVal, Except.ok.injEq, Prod.mk.injEq] at hok
      exact Or.inl ⟨hok.1.symm, hok.2.symm, fun o h => by cases h⟩

theorem storeAlloc_frame (st : Store) (content : List (String × HVal))
    (hwf : storeWF st) :
    (∀ oid c, storeGet st oid = some c →
      storeGet (storeAlloc st content).1 oid = some c) ∧
    storeWF (storeAlloc st content).1 ∧
    st.nextId ≤ (storeAlloc st content).1.nextId ∧
    (storeAlloc st content).1.nextId = st.nextId + 1 := by
  refine ⟨fun oid c h => ?_, ?_, ?_, rfl⟩
  · exact assocFind_append_of_some _ _ _ _ h
  · intro oid hmem
    simp only [storeAlloc, assocKeys, List.map_append, List.mem_append,
      List.map_cons, List.map_nil, List.mem_singleton] at hmem
    rcases hmem with h | h
    · exact Nat.lt_succ_of_lt (hwf oid h)
    · rw [h]
      exact Nat.lt_succ_self _
  · exact Nat.le_succ _


theorem hDictUpdateStep_ok_shape (st1 : Store) (cs : HCastSettings)
    (name : String) (newv v : HVal) (st2 : Store) (cs2 : HCastSettings)
    (hok : hDictUpdateStep st1 cs name newv v = Except.ok (st2, cs2)) :
    ∃ no vo vcontent ncontent, newv = HVal.ref no ∧ v = HVal.ref vo ∧
      storeGet st1 vo = some vcontent ∧ storeGet st1 no = some ncontent ∧
      hSetitem (storeSet st1 no (assocUpdate ncontent vcontent)) cs name
        (HVal.ref no) = Except.ok (st2, cs2) := by
  unfold hDictUpdateStep at hok
  split at hok
  · rename_i no vo
    split at hok
    · rename_i vcontent ncontent hgv hgn
      exact ⟨no, vo, vcontent, ncontent, rfl, rfl, hgv, hgn, hok⟩
    all_goals exact absurd hok (by simp)
  all_goals exact absurd hok (by simp)

theorem hApplyStrategy_frame (st : Store) (cs : HCastSettings)
    (strat : Strategy) (name : String) (v : HVal) (st2 : Store)
    (cs2 : HCastSettings) (hwf : storeWF st)
    (hok : hApplyStrategy st cs strat name v = Except.ok (st2, cs2)) :
    (∀ oid content, storeGet st oid = some content →
      storeGet st2 oid = some content) ∧
    storeWF st2 ∧ st.nextId ≤ st2.nextId := by
  cases strat with
  | setitem =>
      simp only [hApplyStrategy] at hok
      obtain ⟨hst, _⟩ := hSetitem_store_eq st cs name v st2 cs2 hok
      subst hst
      exact ⟨fun _ _ h => h, hwf, Nat.le_refl _⟩
  | doNothing =>
      simp only [hApplyStrategy] at hok
      cases hok
      exact ⟨fun _ _ h => h, hwf, Nat.le_refl _⟩
  | copyAndUpdate =>
      simp only [hApplyStrategy] at hok
      unfold hCopyAndUpdate at hok
      split at hok
      · exact absurd hok (by simp)
      · rename_i st1 newv hcopy
        have hcases := copyHVal_ok st _ st1 newv hcopy
        split at hok
        · obtain ⟨no, vo, vcontent, ncontent, hnv, hvv, hgv, hgn, hset⟩ :=
            hDictUpdateStep_ok_shape st1 cs name newv v st2 cs2 hok
          rcases hcases with ⟨hst1, hweq, hnotref⟩ |
            ⟨o, content, hold, hgeto, hst1, hnewv⟩
          · rw [hnv] at hweq
            exact absurd hweq.symm (hnotref no)
          · have hno : no = st.nextId := by
              rw [hnv] at hnewv
              injection hnewv
            subst hst1
            obtain ⟨hst, _⟩ := hSetitem_store_eq _ cs name _ st2 cs2 hset
            subst hst
            obtain ⟨hfr1, hwf1, _, hnext1⟩ := storeAlloc_frame st content hwf
            refine ⟨fun oid c h => ?_, ?_, ?_⟩
            · have h1 := hfr1 oid c h
              have hoidlt : oid < st.nextId := hwf oid (by
                rw [← assocFind_isSome_iff_mem]
                show (storeGet st oid).isSome = true
                rw [h]
                rfl)
              show assocFind (assocSet _ no _) oid = some c
              rw [assocFind_assocSet, if_neg (by omega : ¬ no = oid)]
              exact h1
            · intro k hk
              simp only [storeSet] at hk ⊢
              have hk2 := assocKeys_assocSet_subset _ no _ k hk
              rcases hk2 with hmem | hkeq
              · exact hwf1 k hmem
              · subst hkeq
                omega
            · simp only [storeSet]
              omega
        · split at hok
          · exact absurd hok (by simp)
          · rename_i st2m vcopy hcopy2
            have hfr01 : (∀ oid c, storeGet st oid = some c →
                storeGet st1 oid = some c) ∧ storeWF st1 ∧
                st.nextId ≤ st1.nextId := by
              rcases hcases with ⟨hst1, _, _⟩ | ⟨o, content, _, _, hst1, _⟩
              · subst hst1
                exact ⟨fun _ _ h => h, hwf, Nat.le_refl _⟩
              · subst hst1
                obtain ⟨hfr1, hwf1, hle1, _⟩ := storeAlloc_frame st content hwf
                exact ⟨hfr1, hwf1, hle1⟩
            obtain ⟨hfr1, hwf1, hle1⟩ := hfr01
            have hfr12 : (∀ oid c, storeGet st1 oid = some c →
                storeGet st2m oid = some c) ∧ storeWF st2m ∧
                st1.nextId ≤ st2m.nextId := by
              rcases copyHVal_ok st1 v st2m vcopy hcopy2 with
                ⟨hst2m, _, _⟩ | ⟨o2, content2, _, _, hst2m, _⟩
              · subst hst2m
                exact ⟨fun _ _ h => h, hwf1, Nat.le_refl _⟩
              · subst hst2m
                obtain ⟨hfr2, hwf2, hle2, _⟩ := storeAlloc_frame st1 content2 hwf1
                exact ⟨hfr2, hwf2, hle2⟩
            obtain ⟨hfr2, hwf2, hle2⟩ := hfr12
            obtain ⟨hst, _⟩ := hSetitem_store_eq _ cs name _ st2 cs2 hok
            subst hst
            exact ⟨fun oid c h => hfr2 oid c (hfr1 oid c h),
              hwf2, Nat.le_trans hle1 hle2⟩

theorem hFoldSettings_frame (select : SettingEntry → Strategy)
    (skipU : Bool) (donor : List (String × HVal)) :
    ∀ (st : Store) (cs : HCastSettings) (st2 : Store) (cs2 : HCastSettings),
    storeWF st →
    hFoldSettings select skipU st cs donor = Except.ok (st2, cs2) →
    (∀ oid content, storeGet st oid = some content →
      storeGet st2 oid = some content) ∧
    storeWF st2 ∧ st.nextId ≤ st2.nextId := by
  induction donor with
  | nil =>
      intro st cs st2 cs2 hwf hok
      unfold hFoldSettings at hok
      cases hok
      exact ⟨fun _ _ h => h, hwf, Nat.le_refl _⟩
  | cons hd rest ih =>
      intro st cs st2 cs2 hwf hok
      obtain ⟨name, v⟩ := hd
      unfold hFoldSettings at hok
      split at hok
      · split at hok
        · exact ih st cs st2 cs2 hwf hok
        · exact absurd hok (by simp)
      · rename_i entry hsch
        split at hok
        · exact absurd hok (by simp)
        · rename_i stM csM happ
          obtain ⟨hfr1, hwf1, hle1⟩ :=
            hApplyStrategy_frame st cs (select entry) name v stM csM hwf happ
          obtain ⟨hfr2, hwf2, hle2⟩ := ih stM csM st2 cs2 hwf1 hok
          exact ⟨fun oid c h => hfr2 oid c (hfr1 oid c h), hwf2,
            Nat.le_trans hle1 hle2⟩

theorem hCopyAndUpdate_fresh (st : Store) (cs : HCastSettings) (name : String)
    (o0 vo : Nat) (st2 : Store) (cs2 : HCastSettings) (hwf : storeWF st)
    (hold : assocFind cs.values name = some (HVal.ref o0))
    (hok : hCopyAndUpdate st cs name (HVal.ref vo) = Except.ok (st2, cs2)) :
    ∃ fid, assocFind cs2.values name = some (HVal.ref fid) ∧
      st.nextId ≤ fid ∧ fid ∉ assocKeys st.dicts := by
  unfold hCopyAndUpdate at hok
  split at hok
  · exact absurd hok (by simp)
  · rename_i st1 newv hcopy
    rw [hold] at hcopy
    simp only [Option.getD_some] at hcopy
    rcases copyHVal_ok st (HVal.ref o0) st1 newv hcopy with
      ⟨_, _, hnotref⟩ | ⟨o, content, hrefeq, hgeto, hst1, hnewv⟩
    · exact absurd rfl (hnotref o0)
    · subst hst1
      subst hnewv
      split at hok
      · obtain ⟨no, vo2, vcontent, ncontent, hnv, hvv, hgv, hgn, hset⟩ :=
          hDictUpdateStep_ok_shape _ cs name _ _ st2 cs2 hok
        have hno : st.nextId = no := by injection hnv
        obtain ⟨_, hvals⟩ := hSetitem_store_eq _ cs name _ st2 cs2 hset
        refine ⟨no, ?_, ?_, ?_⟩
        · rw [hvals, assocFind_assocSet, if_pos rfl]
        · omega
        · intro hmem
          have hlt := hwf no hmem
          omega
      · split at hok
        · exact absurd hok (by simp)
        · rename_i st2m vcopy hcopy2
          rcases copyHVal_ok _ (HVal.ref vo) st2m vcopy hcopy2 with
            ⟨_, _, hnotref2⟩ | ⟨o2, content2, _, _, hst2m, hvcopy⟩
          · exact absurd rfl (hnotref2 vo)
          · subst hvcopy
            obtain ⟨_, hvals⟩ := hSetitem_store_eq _ cs name _ st2 cs2 hok
            refine ⟨(storeAlloc st content).1.nextId, ?_, ?_, ?_⟩
            · rw [hvals, assocFind_assocSet, if_pos rfl]
            · have h2 : (storeAlloc st content).1.nextId = st.nextId + 1 := rfl
              omega
            · intro hmem
              have hlt := hwf _ hmem
              have h2 : (storeAlloc st content).1.nextId = st.nextId + 1 := rfl
              omega

/-- C10: a successful `override` or `customize` of a configuration store
leaves every pre-existing dictionary object — in particular every object
held by the settings donor — with unchanged content (the loops read a copy
of the donor and only ever mutate freshly allocated copies), keeps the
store well-formed and never reuses an existing object id; and the value
stored by the shallow-merge strategy `copy_and_update` for a
dictionary-valued setting is a reference to a freshly allocated object,
never an object id that existed before the call — so it cannot be the
mapping object held by the donor, and later merges through c mutate only
fresh copies, never writing through into the donor. -/
theorem C10_spec (st : Store) (cs : HCastSettings)
    (donor : List (String × HVal)) (hwf : storeWF st) :
    (∀ st2 cs2, hCustomize st cs donor = Except.ok (st2, cs2) →
      (∀ oid content, storeGet st oid = some content →
        storeGet st2 oid = some content) ∧
      storeWF st2 ∧ st.nextId ≤ st2.nextId) ∧
    (∀ st2 cs2, hOverrideValues st cs donor = Except.ok (st2, cs2) →
      (∀ oid content, storeGet st oid = some content →
        storeGet st2 oid = some content) ∧
      storeWF st2 ∧ st.nextId ≤ st2.nextId) ∧
    (∀ name o0 vo st2 cs2,
      assocFind cs.values name = some (HVal.ref o0) →
      hCopyAndUpdate st cs name (HVal.ref vo) = Except.ok (st2, cs2) →
      ∃ fid, assocFind cs2.values name = some (HVal.ref fid) ∧
        st.nextId ≤ fid ∧ fid ∉ assocKeys st.dicts) := by
  refine ⟨fun st2 cs2 hok => ?_, fun st2 cs2 hok => ?_,
    fun name o0 vo st2 cs2 hold hok => ?_⟩
  · exact hFoldSettings_frame _ _ donor st cs st2 cs2 hwf hok
  · exact hFoldSettings_frame _ _ donor st cs st2 cs2 hwf hok
  · exact hCopyAndUpdate_fresh st cs name o0 vo st2 cs2 hwf hold hok

/-- A store holding two dictionary objects: object 0 (the store's own old
value) and object 1 (held by the donor). -/
def c10Store : Store :=
  ⟨[(0, [("a", HVal.int 1)]), (1, [("b", HVal.int 2)])], 2⟩

/-- A configuration store whose shallow-merge setting `m` holds object 0. -/
def c10Settings : HCastSettings :=
  ⟨[("m", entryShallowMerge)], [("m", HVal.ref 0)]⟩

/-- A donor handing down object 1 for the setting `m`. -/
def c10Donor : List (String × HVal) := [("m", HVal.ref 1)]

/-- C10 (witness): the statement evaluated on the concrete store,
configuration and donor. -/
theorem C10_witness :
    (∀ st2 cs2, hCustomize c10Store c10Settings c10Donor =
        Except.ok (st2, cs2) →
      (∀ oid content, storeGet c10Store oid = some content →
        storeGet st2 oid = some content) ∧
      storeWF st2 ∧ c10Store.nextId ≤ st2.nextId) ∧
    (∀ st2 cs2, hOverrideValues c10Store c10Settings c10Donor =
        Except.ok (st2, cs2) →
      (∀ oid content, storeGet c10Store oid = some content →
        storeGet st2 oid = some content) ∧
      storeWF st2 ∧ c10Store.nextId ≤ st2.nextId) ∧
    (∀ name o0 vo st2 cs2,
      assocFind c10Settings.values name = some (HVal.ref o0) →
      hCopyAndUpdate c10Store c10Settings name (HVal.ref vo) =
        Except.ok (st2, cs2) →
      ∃ fid, assocFind cs2.values name = some (HVal.ref fid) ∧
        c10Store.nextId ≤ fid ∧ fid ∉ assocKeys c10Store.dicts) :=
  C10_spec c10Store c10Settings c10Donor (by decide)

end Any2Any
